import Mathlib

/-!
Verification of the MeshCore xiao-wifi serial2tcp client (`src/mesh_client.py`).

Bytes are modelled as `Nat` values (well-formed inputs have every entry
`< 256`); byte strings are `List Nat`.  The TCP socket is modelled as a
deterministic finite byte stream: `sock.recv n` returns the first
`min n available` bytes and the remainder of the stream; a `recv` on an
exhausted stream returns the empty chunk (peer closed).  Library crypto
primitives (SHA-256, the AES-128 block cipher, HMAC-SHA256) are external
calls, not code of this repository; they are taken as opaque function
parameters so that every theorem about packet structure holds for any
implementation of the primitives.
-/

namespace MeshClient

/-- Source constant `ROUTE_FLOOD = 0x01`. -/
def ROUTE_FLOOD : Nat := 0x01

/-- Source constant `TYPE_GRP_TXT = 0x05`. -/
def TYPE_GRP_TXT : Nat := 0x05

/-- Source constant `CIPHER_MAC_SIZE = 2`. -/
def CIPHER_MAC_SIZE : Nat := 2

/-- Source constant `CIPHER_KEY_SIZE = 16`. -/
def CIPHER_KEY_SIZE : Nat := 16

/-- Source constant `PUB_KEY_SIZE = 32`. -/
def PUB_KEY_SIZE : Nat := 32

/-- One iteration of the loop body of `fletcher16`:
`sum1 = (sum1 + byte) % 255` followed by `sum2 = (sum2 + sum1) % 255`
(the updated `sum1` feeds into `sum2`).  The pair is `(sum1, sum2)`. -/
def fletcher16Step (s : Nat × Nat) (byte : Nat) : Nat × Nat :=
  ((s.1 + byte) % 255, (s.2 + (s.1 + byte) % 255) % 255)

/-- Embeds `fletcher16(data)` (src/mesh_client.py lines 32-38): both
accumulators start at 0, are updated per byte by `fletcher16Step`, and the
result is the two bytes `[sum2, sum1]`. -/
def fletcher16 (data : List Nat) : List Nat :=
  let s := data.foldl fletcher16Step (0, 0)
  [s.2, s.1]

/-- Embeds `create_rs232_frame(packet)` (lines 108-113):
`magic(0xC0 0x3E) || len(packet) big-endian u16 || packet || fletcher16(packet)`.
`struct.pack(">H", n)` raises for `n > 65535`, hence the `Option`. -/
def create_rs232_frame (packet : List Nat) : Option (List Nat) :=
  if packet.length ≤ 65535 then
    some ([0xC0, 0x3E] ++ [packet.length / 256, packet.length % 256]
          ++ packet ++ fletcher16 packet)
  else none

/-- Embeds the body-accumulation loop of `read_rs232_frame` (lines 129-134):
`while len(packet) < length: chunk = sock.recv(length - len(packet));
if not chunk: return None; packet += chunk`.  The stream `s` models the
socket; a `recv` takes a prefix of it.  Returns the decoded body (or `none`
on an empty chunk, i.e. peer closed) together with the unread remainder of
the stream. -/
def read_packet_loop (s : List Nat) (packet : List Nat) (length : Nat) :
    Option (List Nat) × List Nat :=
  if h : packet.length < length then
    if hc : s.take (length - packet.length) = [] then
      (none, s.drop (length - packet.length))
    else
      read_packet_loop (s.drop (length - packet.length))
        (packet ++ s.take (length - packet.length)) length
  else (some packet, s)
termination_by s.length
decreasing_by
  have hs : s ≠ [] := by
    intro hnil
    exact hc (by simp [hnil])
  have hlen : 0 < s.length := List.length_pos.mpr hs
  have hdrop : (s.drop (length - packet.length)).length
      = s.length - (length - packet.length) := List.length_drop _ _
  omega

/-- Embeds `read_rs232_frame(sock)` (lines 115-152) over a finite byte
stream.  Returns the decoded packet (or `none` on any failure: short read
of magic/length/checksum, wrong magic bytes, peer closing during the body,
or checksum mismatch) together with the unread remainder of the stream.
After the 2 checksum bytes the code unconditionally `recv(1)`s one more
byte (the expected `\n` delimiter; a non-newline byte only prints a
warning) before verifying the checksum. -/
def read_rs232_frame (s : List Nat) : Option (List Nat) × List Nat :=
  let magic := s.take 2
  let s1 := s.drop 2
  if magic.length < 2 ∨ magic.getD 0 0 ≠ 0xC0 ∨ magic.getD 1 0 ≠ 0x3E then
    (none, s1)
  else
    let length_bytes := s1.take 2
    let s2 := s1.drop 2
    if length_bytes.length < 2 then (none, s2)
    else
      let length := length_bytes.getD 0 0 * 256 + length_bytes.getD 1 0
      match read_packet_loop s2 [] length with
      | (none, s3) => (none, s3)
      | (some packet, s3) =>
        let checksum := s3.take 2
        let s4 := s3.drop 2
        if checksum.length < 2 then (none, s4)
        else
          let s5 := s4.drop 1
          if fletcher16 packet ≠ checksum then (none, s5)
          else (some packet, s5)

/-- Embeds `pad_to_block_size(data, block_size)` (lines 53-58): compute
`padding_len = (block_size - len % block_size) % block_size`, overwrite it
with `block_size - len % block_size` when `len % block_size != 0` (the same
value), and append that many zero bytes (`bytes(padding_len)`). -/
def pad_to_block_size (data : List Nat) (block_size : Nat) : List Nat :=
  let padding_len := (block_size - data.length % block_size) % block_size
  let padding_len :=
    if data.length % block_size ≠ 0 then block_size - data.length % block_size
    else padding_len
  data ++ List.replicate padding_len 0

/-- Electronic-codebook encryption: each 16-byte block of `data` is
encrypted independently by the block cipher `aes_block` (an opaque
parameter standing for `AES.new(key, AES.MODE_ECB)` of the external
`Crypto.Cipher` library, applied block by block as `cipher.encrypt` does on
a buffer whose length is a multiple of 16). -/
def ecb_encrypt (aes_block : List Nat → List Nat → List Nat)
    (key : List Nat) (data : List Nat) : List Nat :=
  if data = [] then []
  else aes_block key (data.take 16) ++ ecb_encrypt aes_block key (data.drop 16)
termination_by data.length
decreasing_by
  have hlen : 0 < data.length := List.length_pos.mpr (by assumption)
  have hdrop : (data.drop 16).length = data.length - 16 := List.length_drop _ _
  omega

/-- Embeds `encrypt_aes128(secret, plaintext)` (lines 61-66): the key is
`secret[:CIPHER_KEY_SIZE]`, the plaintext is zero-padded to the 16-byte
block size and encrypted in ECB mode. -/
def encrypt_aes128 (aes_block : List Nat → List Nat → List Nat)
    (secret plaintext : List Nat) : List Nat :=
  let key := secret.take CIPHER_KEY_SIZE
  ecb_encrypt aes_block key (pad_to_block_size plaintext 16)

/-- Embeds `encrypt_then_mac(secret, plaintext)` (lines 69-73):
`mac = HMAC-SHA256(secret[:PUB_KEY_SIZE], ciphertext)[:CIPHER_MAC_SIZE]`,
returning `mac || ciphertext`.  `hmac_sha256` is an opaque parameter
standing for the external `Crypto.Hash.HMAC` primitive. -/
def encrypt_then_mac (aes_block hmac_sha256 : List Nat → List Nat → List Nat)
    (secret plaintext : List Nat) : List Nat :=
  let encrypted := encrypt_aes128 aes_block secret plaintext
  let mac := (hmac_sha256 (secret.take PUB_KEY_SIZE) encrypted).take CIPHER_MAC_SIZE
  mac ++ encrypted

/-- Embeds `get_public_channel_secret()` (lines 41-43): the byte values of
`base64.b64decode("izOH6cXN6mrJ5e26oRXNcg==")`, the fixed public channel
PSK of line 24. -/
def get_public_channel_secret : List Nat :=
  [139, 51, 135, 233, 197, 205, 234, 106, 201, 229, 237, 186, 161, 21, 205, 114]

/-- Embeds `get_public_channel_hash(secret)` (lines 46-50): the first byte
of the SHA-256 digest of the secret.  `sha256` is an opaque parameter
standing for the external `hashlib.sha256` primitive. -/
def get_public_channel_hash (sha256 : List Nat → List Nat) (secret : List Nat) : Nat :=
  (sha256 secret).getD 0 0

/-- Embeds `create_group_message_data(timestamp, sender_name, message)`
(lines 76-83): `struct.pack('<I', timestamp)` (4 little-endian bytes),
the `txt_type` byte `0x00`, then the UTF-8 bytes of
`f"{sender_name}: {message}"`.  `sender_name` and `message` are modelled
directly as their UTF-8 byte lists, so the formatted text is
`sender_name ++ ": " ++ message` with `": " = [0x3A, 0x20]`. -/
def create_group_message_data (timestamp : Nat) (sender_name message : List Nat) :
    List Nat :=
  [timestamp % 256, timestamp / 256 % 256,
   timestamp / 65536 % 256, timestamp / 16777216 % 256]
  ++ [0x00]
  ++ (sender_name ++ [0x3A, 0x20] ++ message)

/-- Embeds `create_group_text_packet(sender_name, message)` (lines 86-106).
The source fixes `secret = get_public_channel_secret()` and
`timestamp = int(time.time())`; the secret and the timestamp (an external
input read from the clock) are lifted to parameters here, together with the
opaque crypto primitives.  Builds
`header((TYPE_GRP_TXT << 2) | ROUTE_FLOOD) || path_len(0x00) ||
channel_hash || encrypt_then_mac(secret, data)`. -/
def create_group_text_packet (sha256 : List Nat → List Nat)
    (aes_block hmac_sha256 : List Nat → List Nat → List Nat)
    (secret : List Nat) (sender_name message : List Nat) (timestamp : Nat) :
    List Nat :=
  let channel_hash := get_public_channel_hash sha256 secret
  let data := create_group_message_data timestamp sender_name message
  let encrypted := encrypt_then_mac aes_block hmac_sha256 secret data
  let payload := channel_hash :: encrypted
  let header := (TYPE_GRP_TXT <<< 2) ||| ROUTE_FLOOD
  header :: 0x00 :: payload

/-- Packing of the header byte, as written on line 100 of the source:
`header = (type << 2) | route`. -/
def pack_header (ptype route : Nat) : Nat := (ptype <<< 2) ||| route

/-- Unpacking of the header byte, as written in `display_packet`
(lines 159-161): `route = header & 0x03`, `ptype = (header >> 2) & 0x0F`. -/
def unpack_header (header : Nat) : Nat × Nat :=
  (header &&& 0x03, (header >>> 2) &&& 0x0F)

/-- Modelled from the spec (§4.1): the reference Fletcher-16 recursion,
two accumulators `a`, `b`, for each byte `x` in order
`a = (a + x) mod 255` then `b = (b + a) mod 255`. -/
def fletcher16_ref_go (a b : Nat) : List Nat → Nat × Nat
  | [] => (a, b)
  | x :: xs => fletcher16_ref_go ((a + x) % 255) ((b + (a + x) % 255) % 255) xs

/-- Modelled from the spec (§4.1): `compute` outputs `[b, a]`, high
accumulator first. -/
def fletcher16_ref (data : List Nat) : List Nat :=
  let s := fletcher16_ref_go 0 0 data
  [s.2, s.1]

/-- Modelled from the spec (§4.1): `verify(data, checksum)` is
`compute(data) == checksum` (in the source this comparison is inlined in
`read_rs232_frame`, lines 147-150). -/
def checksum_verify (data checksum : List Nat) : Bool :=
  fletcher16 data == checksum

/-! ## Helper lemmas -/

theorem take2_cons (a b : Nat) (t : List Nat) : (a :: b :: t).take 2 = [a, b] := rfl

theorem drop2_cons (a b : Nat) (t : List Nat) : (a :: b :: t).drop 2 = t := rfl

/-- The first accumulator of the Fletcher fold is the running byte sum
reduced modulo 255. -/
theorem fletcher_fold_fst (l : List Nat) :
    ∀ a b : Nat, a < 255 → (l.foldl fletcher16Step (a, b)).1 = (a + l.sum) % 255 := by
  induction l with
  | nil =>
    intro a b ha
    simpa using (Nat.mod_eq_of_lt ha).symm
  | cons x xs ih =>
    intro a b ha
    have hstep : fletcher16Step (a, b) x
        = ((a + x) % 255, (b + (a + x) % 255) % 255) := rfl
    rw [List.foldl_cons, hstep, ih _ _ (Nat.mod_lt _ (by norm_num)),
      Nat.mod_add_mod, List.sum_cons, Nat.add_assoc]

/-- The second output byte of `fletcher16` is the byte sum modulo 255. -/
theorem fletcher16_getD_one (d : List Nat) :
    (fletcher16 d).getD 1 0 = d.sum % 255 := by
  have h := fletcher_fold_fst d 0 0 (by norm_num)
  rw [Nat.zero_add] at h
  exact h

/-- Replacing the `i`-th element changes the sum by the difference of the
old and the new value. -/
theorem sum_set (p : List Nat) :
    ∀ i v : Nat, i < p.length → (p.set i v).sum + p.getD i 0 = p.sum + v := by
  induction p with
  | nil => intro i v h; simp at h
  | cons x xs ih =>
    intro i v h
    cases i with
    | zero => simp [Nat.add_comm, Nat.add_left_comm]
    | succ j =>
      have hj : j < xs.length := by simpa using h
      have := ih j v hj
      simp only [List.set_cons_succ, List.sum_cons, List.getD_cons_succ]
      omega

/-- Replacing one byte by a value with a different residue modulo 255
changes the Fletcher-16 checksum. -/
theorem fletcher16_ne_of_set (p : List Nat) (i v : Nat)
    (hi : i < p.length) (hv : v % 255 ≠ p.getD i 0 % 255) :
    fletcher16 (p.set i v) ≠ fletcher16 p := by
  intro heq
  have hsum : (p.set i v).sum % 255 = p.sum % 255 := by
    have h1 := fletcher16_getD_one (p.set i v)
    have h2 := fletcher16_getD_one p
    rw [← h1, ← h2, heq]
  have hset := sum_set p i v hi
  have hmod : (p.sum + v) % 255 = (p.sum + p.getD i 0) % 255 := by
    calc (p.sum + v) % 255 = ((p.set i v).sum + p.getD i 0) % 255 := by rw [hset]
    _ = ((p.set i v).sum % 255 + p.getD i 0) % 255 := by rw [Nat.mod_add_mod]
    _ = (p.sum % 255 + p.getD i 0) % 255 := by rw [hsum]
    _ = (p.sum + p.getD i 0) % 255 := by rw [Nat.mod_add_mod]
  exact hv ((Nat.ModEq.add_left_cancel' p.sum hmod) : v ≡ p.getD i 0 [MOD 255])

/-- Closed form of the body-accumulation loop when the stream holds at
least `l` bytes: the first `recv` already returns all `l` requested bytes
(the deterministic stream model delivers `min n available`), so the loop
terminates after one iteration with the `l`-byte prefix. -/
theorem read_packet_loop_complete (l : Nat) (s : List Nat) (h : l ≤ s.length) :
    read_packet_loop s [] l = (some (s.take l), s.drop l) := by
  rcases Nat.eq_zero_or_pos l with hl | hl
  · subst hl
    rw [read_packet_loop]
    simp
  · have hs : s ≠ [] := by
      intro hnil
      subst hnil
      simp at h
      omega
    have htake : s.take l ≠ [] := by
      simp only [ne_eq, List.take_eq_nil_iff]
      push_neg
      exact ⟨by omega, hs⟩
    rw [read_packet_loop]
    simp only [List.length_nil, hl, dif_pos, Nat.sub_zero, List.nil_append]
    rw [dif_neg htake, read_packet_loop]
    have hlen : (s.take l).length = l := List.length_take_of_le h
    rw [dif_neg (by omega)]

/-- General decode shape: a stream that starts with the magic, the
big-endian encoding of `p.length`, a body `p` and a 2-byte stored checksum
`c`, followed by arbitrary further bytes `rest`, decodes to `p` exactly
when `fletcher16 p = c`, and in every case one extra byte of `rest` (the
expected newline delimiter) is consumed. -/
theorem read_frame_spec (p c rest : List Nat) (hc : c.length = 2) :
    read_rs232_frame ([0xC0, 0x3E, p.length / 256, p.length % 256]
        ++ (p ++ (c ++ rest)))
    = ((if fletcher16 p = c then some p else none), rest.drop 1) := by
  have hstream : [0xC0, 0x3E, p.length / 256, p.length % 256] ++ (p ++ (c ++ rest))
      = 0xC0 :: 0x3E :: (p.length / 256) :: (p.length % 256) :: (p ++ (c ++ rest)) := by
    simp
  rw [hstream]
  simp only [read_rs232_frame, take2_cons, drop2_cons]
  rw [if_neg (by simp)]
  rw [if_neg (by simp)]
  have hlenval : ([p.length / 256, p.length % 256].getD 0 0) * 256
      + [p.length / 256, p.length % 256].getD 1 0 = p.length := by
    simp only [List.getD_cons_zero, List.getD_cons_succ]
    omega
  rw [hlenval]
  have hbound : p.length ≤ (p ++ (c ++ rest)).length := by
    simp
  rw [read_packet_loop_complete _ _ hbound, List.take_left, List.drop_left]
  simp only [List.take_left' hc, List.drop_left' hc]
  rw [if_neg (by omega)]
  by_cases hck : fletcher16 p = c
  · rw [if_neg (by simp [hck]), if_pos hck]
  · rw [if_pos (by simp [hck]), if_neg hck]

/-- A stream whose first byte is not `0xC0` fails the magic check. -/
theorem read_fails_on_first_byte (b : Nat) (s : List Nat) (hb : b ≠ 0xC0) :
    (read_rs232_frame (b :: s)).1 = none := by
  have ht : (b :: s).take 2 = b :: s.take 1 := rfl
  simp only [read_rs232_frame, ht, List.getD_cons_zero]
  rw [if_pos (Or.inr (Or.inl hb))]

/-- Inversion of the encoder: a successful `create_rs232_frame` yields the
magic, the big-endian length, the packet and the Fletcher checksum. -/
theorem create_rs232_frame_inv (p f : List Nat)
    (h : create_rs232_frame p = some f) :
    p.length ≤ 65535
    ∧ f = [0xC0, 0x3E] ++ [p.length / 256, p.length % 256]
        ++ p ++ fletcher16 p := by
  by_cases hb : p.length ≤ 65535
  · refine ⟨hb, ?_⟩
    rw [create_rs232_frame, if_pos hb] at h
    exact (Option.some_injective _ h).symm
  · rw [create_rs232_frame, if_neg hb] at h
    exact absurd h (by simp)

/-! ## Claims -/

/-- C1 (counterexample): the claim quantifies over every replacement byte
`v ≠ p[i]`, but Fletcher-16 reduces each byte modulo 255, so replacing the
single body byte `0x00` of the frame for `p = [0x00]` with `0xFF` leaves
the stored checksum valid: the decoder returns a packet (the corrupted
body `[0xFF]`), not a failure. -/
theorem checksum_single_byte_corruption_counterexample :
    create_rs232_frame [0x00] = some [0xC0, 0x3E, 0, 1, 0x00, 0, 0]
    ∧ (0xFF : Nat) ≠ 0x00
    ∧ (read_rs232_frame [0xC0, 0x3E, 0, 1, 0xFF, 0, 0]).1 = some [0xFF] := by
  refine ⟨rfl, by norm_num, ?_⟩
  have h := read_frame_spec [0xFF] [0, 0] [] rfl
  norm_num [fletcher16, fletcher16Step] at h
  rw [h]

/-- C1 (amended): replacing the `i`-th body byte of an encoded frame with a
value `v` whose residue modulo 255 differs from `p[i]`'s (every change
except swapping `0x00` and `0xFF`), while keeping the stored checksum,
makes `read_rs232_frame` fail (return no packet). -/
theorem checksum_single_byte_corruption (p f : List Nat) (i v : Nat)
    (hf : create_rs232_frame p = some f) (hi : i < p.length)
    (hv : v % 255 ≠ p.getD i 0 % 255) :
    (read_rs232_frame (f.set (4 + i) v)).1 = none := by
  obtain ⟨hb, hfe⟩ := create_rs232_frame_inv p f hf
  subst hfe
  have hassoc : [0xC0, 0x3E] ++ [p.length / 256, p.length % 256]
      ++ p ++ fletcher16 p
      = [0xC0, 0x3E, p.length / 256, p.length % 256]
        ++ (p ++ fletcher16 p) := by simp
  rw [hassoc, List.set_append_right _ _ (by simp),
    List.set_append_left _ _ (by simpa using hi)]
  have hset : ([0xC0, 0x3E, p.length / 256, p.length % 256] : List Nat).length = 4 := rfl
  rw [hset] at *
  have hidx : 4 + i - 4 = i := by omega
  rw [hidx]
  have hlen : (p.set i v).length = p.length := List.length_set p i v
  have h := read_frame_spec (p.set i v) (fletcher16 p) []
    (by rfl)
  rw [hlen] at h
  have hne : fletcher16 (p.set i v) ≠ fletcher16 p :=
    fletcher16_ne_of_set p i v hi hv
  rw [if_neg hne] at h
  have hassoc2 : p.set i v ++ fletcher16 p
      = p.set i v ++ (fletcher16 p ++ []) := by simp
  rw [hassoc2, h]

/-- C1 (witness for the amended theorem): for `p = [0x00]`, position 0 and
replacement byte `0x01`, decoding the corrupted frame fails. -/
theorem checksum_single_byte_corruption_witness :
    create_rs232_frame [0x00] = some [0xC0, 0x3E, 0, 1, 0x00, 0, 0]
    ∧ (0 : Nat) < ([0x00] : List Nat).length
    ∧ (1 : Nat) % 255 ≠ ([0x00] : List Nat).getD 0 0 % 255
    ∧ (read_rs232_frame (([0xC0, 0x3E, 0, 1, 0x00, 0, 0] : List Nat).set 4 1)).1
        = none :=
  ⟨rfl, by norm_num, by norm_num, checksum_single_byte_corruption
    [0x00] [0xC0, 0x3E, 0, 1, 0x00, 0, 0] 0 1 rfl (by norm_num) (by norm_num)⟩

/-- C2: decoding a stream holding exactly an encoded frame succeeds and
returns the original packet (with the whole stream consumed). -/
theorem frame_roundtrip (p f : List Nat) (h : create_rs232_frame p = some f) :
    read_rs232_frame f = (some p, []) := by
  obtain ⟨hb, hfe⟩ := create_rs232_frame_inv p f h
  subst hfe
  have hassoc : [0xC0, 0x3E] ++ [p.length / 256, p.length % 256]
      ++ p ++ fletcher16 p
      = [0xC0, 0x3E, p.length / 256, p.length % 256]
        ++ (p ++ (fletcher16 p ++ [])) := by simp
  rw [hassoc, read_frame_spec p (fletcher16 p) [] rfl, if_pos rfl]
  rfl

/-- C2 (witness): the frame for the one-byte packet `[0x00]` decodes back
to `[0x00]`. -/
theorem frame_roundtrip_witness :
    create_rs232_frame [0x00] = some [0xC0, 0x3E, 0, 1, 0x00, 0, 0]
    ∧ read_rs232_frame [0xC0, 0x3E, 0, 1, 0x00, 0, 0] = (some [0x00], []) :=
  ⟨rfl, frame_roundtrip [0x00] [0xC0, 0x3E, 0, 1, 0x00, 0, 0] rfl⟩

/-- C9: the decoder always `recv`s one byte after the checksum (the
expected newline delimiter).  On a stream holding two back-to-back encoded
frames the first call returns `p1` but swallows the second frame's first
magic byte, so the second call fails although both frames are well
formed. -/
theorem delimiter_read_breaks_back_to_back_frames (p1 p2 f1 f2 : List Nat)
    (h1 : create_rs232_frame p1 = some f1)
    (h2 : create_rs232_frame p2 = some f2) :
    read_rs232_frame (f1 ++ f2) = (some p1, f2.drop 1)
    ∧ (read_rs232_frame (f2.drop 1)).1 = none := by
  obtain ⟨hb1, hfe1⟩ := create_rs232_frame_inv p1 f1 h1
  obtain ⟨hb2, hfe2⟩ := create_rs232_frame_inv p2 f2 h2
  constructor
  · rw [hfe1]
    have hassoc : ([0xC0, 0x3E] ++ [p1.length / 256, p1.length % 256]
        ++ p1 ++ fletcher16 p1) ++ f2
        = [0xC0, 0x3E, p1.length / 256, p1.length % 256]
          ++ (p1 ++ (fletcher16 p1 ++ f2)) := by simp
    rw [hassoc, read_frame_spec p1 (fletcher16 p1) f2 rfl, if_pos rfl]
  · have hdrop : f2.drop 1 = 0x3E :: ((p2.length / 256) :: (p2.length % 256)
        :: (p2 ++ fletcher16 p2)) := by
      rw [hfe2]; simp
    rw [hdrop]
    exact read_fails_on_first_byte 0x3E _ (by norm_num)

/-- C9 (witness): two back-to-back frames for the empty packet — the first
decode returns the empty packet leaving the second frame beheaded, and the
second decode fails. -/
theorem delimiter_read_breaks_back_to_back_frames_witness :
    create_rs232_frame [] = some [0xC0, 0x3E, 0, 0, 0, 0]
    ∧ read_rs232_frame ([0xC0, 0x3E, 0, 0, 0, 0] ++ [0xC0, 0x3E, 0, 0, 0, 0])
        = (some [], ([0xC0, 0x3E, 0, 0, 0, 0] : List Nat).drop 1)
    ∧ (read_rs232_frame (([0xC0, 0x3E, 0, 0, 0, 0] : List Nat).drop 1)).1 = none :=
  ⟨rfl,
   (delimiter_read_breaks_back_to_back_frames [] [] _ _ rfl rfl).1,
   (delimiter_read_breaks_back_to_back_frames [] [] _ _ rfl rfl).2⟩

/-- C10: every failure mode of the decoder — stream closed before or
during the magic, length, body or checksum reads, wrong magic bytes, and
checksum mismatch — produces the one failure value `none`, so the decode
result alone cannot tell the spec's error kinds apart. -/
theorem decoder_failures_indistinguishable :
    (read_rs232_frame []).1 = none                              -- closed before magic
    ∧ (read_rs232_frame [0xC0]).1 = none                        -- closed during magic
    ∧ (read_rs232_frame [0x00, 0x3E, 0, 0, 0, 0]).1 = none      -- bad first magic byte
    ∧ (read_rs232_frame [0xC0, 0x3F, 0, 0, 0, 0]).1 = none      -- bad second magic byte
    ∧ (read_rs232_frame [0xC0, 0x3E, 0]).1 = none               -- closed during length
    ∧ (read_rs232_frame [0xC0, 0x3E, 0, 2, 9]).1 = none         -- closed during body
    ∧ (read_rs232_frame [0xC0, 0x3E, 0, 1, 9, 9]).1 = none      -- closed during checksum
    ∧ (read_rs232_frame [0xC0, 0x3E, 0, 1, 9, 0, 0]).1 = none   -- checksum mismatch
    := by
  refine ⟨rfl, rfl, rfl, rfl, rfl, ?_, ?_, ?_⟩
  · simp [read_rs232_frame, read_packet_loop]
  · simp [read_rs232_frame, read_packet_loop]
  · have h := read_frame_spec [9] [0, 0] [] rfl
    norm_num [fletcher16, fletcher16Step] at h
    rw [h]

/-- The Fletcher-16 output is always exactly 2 bytes. -/
theorem fletcher16_length (d : List Nat) : (fletcher16 d).length = 2 := rfl

/-- C7: a successfully encoded frame is exactly magic `0xC0 0x3E`, the
packet length as big-endian u16, the packet verbatim, and the 2-byte
Fletcher-16 checksum of the packet alone — 6 + len(packet) bytes in total,
with no trailing delimiter byte. -/
theorem frame_layout (p f : List Nat) (h : create_rs232_frame p = some f) :
    f.take 2 = [0xC0, 0x3E]
    ∧ f.getD 2 0 * 256 + f.getD 3 0 = p.length
    ∧ (f.drop 4).take p.length = p
    ∧ f.drop (4 + p.length) = fletcher16 p
    ∧ f.length = p.length + 6 := by
  obtain ⟨hb, hfe⟩ := create_rs232_frame_inv p f h
  have hcons : f = 0xC0 :: 0x3E :: (p.length / 256) :: (p.length % 256)
      :: (p ++ fletcher16 p) := by rw [hfe]; simp
  subst hcons
  refine ⟨rfl, ?_, ?_, ?_, ?_⟩
  · simp only [List.getD_cons_succ, List.getD_cons_zero]
    omega
  · have hd : (0xC0 :: 0x3E :: (p.length / 256) :: (p.length % 256)
        :: (p ++ fletcher16 p)).drop 4 = p ++ fletcher16 p := rfl
    rw [hd, List.take_left]
  · have hd : (0xC0 :: 0x3E :: (p.length / 256) :: (p.length % 256)
        :: (p ++ fletcher16 p)).drop (p.length + 4)
        = (p ++ fletcher16 p).drop p.length := rfl
    rw [Nat.add_comm 4 p.length, hd, List.drop_left]
  · simp [fletcher16_length]

/-- C7 (witness): layout of the frame for the one-byte packet `[0x07]`. -/
theorem frame_layout_witness :
    create_rs232_frame [0x07] = some [0xC0, 0x3E, 0, 1, 0x07, 7, 7]
    ∧ ([0xC0, 0x3E, 0, 1, 0x07, 7, 7] : List Nat).take 2 = [0xC0, 0x3E]
    ∧ ([0xC0, 0x3E, 0, 1, 0x07, 7, 7] : List Nat).getD 2 0 * 256
        + ([0xC0, 0x3E, 0, 1, 0x07, 7, 7] : List Nat).getD 3 0
        = ([0x07] : List Nat).length
    ∧ (([0xC0, 0x3E, 0, 1, 0x07, 7, 7] : List Nat).drop 4).take
        ([0x07] : List Nat).length = [0x07]
    ∧ ([0xC0, 0x3E, 0, 1, 0x07, 7, 7] : List Nat).drop
        (4 + ([0x07] : List Nat).length) = fletcher16 [0x07]
    ∧ ([0xC0, 0x3E, 0, 1, 0x07, 7, 7] : List Nat).length
        = ([0x07] : List Nat).length + 6 := by
  have h := frame_layout [0x07] [0xC0, 0x3E, 0, 1, 0x07, 7, 7] rfl
  exact ⟨rfl, h.1, h.2.1, h.2.2.1, h.2.2.2.1, h.2.2.2.2⟩

/-- C8: for every route in 0..3 and type in 0..15, unpacking the packed
header byte `(type << 2) | route` recovers exactly the original pair. -/
theorem header_roundtrip (route ptype : Nat) (hr : route < 4) (ht : ptype < 16) :
    unpack_header (pack_header ptype route) = (route, ptype) := by
  have h : ∀ r < 4, ∀ t < 16, unpack_header (pack_header t r) = (r, t) := by decide
  exact h route hr ptype ht

/-- C8 (witness): the GRP_TXT/FLOOD header byte round-trips. -/
theorem header_roundtrip_witness :
    (1 : Nat) < 4 ∧ (5 : Nat) < 16 ∧ unpack_header (pack_header 5 1) = (1, 5) :=
  ⟨by norm_num, by norm_num, header_roundtrip 1 5 (by norm_num) (by norm_num)⟩

/-- C4: the source's `fletcher16` coincides with the spec's reference
Fletcher-16 recursion (two accumulators reduced modulo 255, output high
accumulator first), and verifying any data against its own checksum
succeeds. -/
theorem fletcher16_correct (d : List Nat) :
    fletcher16 d = fletcher16_ref d ∧ checksum_verify d (fletcher16 d) = true := by
  constructor
  · have hgo : ∀ (l : List Nat) (a b : Nat),
        l.foldl fletcher16Step (a, b) = fletcher16_ref_go a b l := by
      intro l
      induction l with
      | nil => intro a b; rfl
      | cons x xs ih =>
        intro a b
        rw [List.foldl_cons]
        exact ih _ _
    rw [fletcher16, fletcher16_ref, hgo]
  · simp [checksum_verify]

/-- The two ways the source computes `padding_len` agree: padding is
`(16 - len mod 16) mod 16` zero bytes appended. -/
theorem pad_to_block_size_eq (data : List Nat) :
    pad_to_block_size data 16
    = data ++ List.replicate ((16 - data.length % 16) % 16) 0 := by
  unfold pad_to_block_size
  by_cases h : data.length % 16 = 0
  · simp [h]
  · have hr : data.length % 16 < 16 := Nat.mod_lt _ (by norm_num)
    have : (16 - data.length % 16) % 16 = 16 - data.length % 16 :=
      Nat.mod_eq_of_lt (by omega)
    simp [h, this]

/-- The padded buffer's length is the plaintext length rounded up to the
next multiple of 16. -/
theorem pad_to_block_size_length (data : List Nat) :
    (pad_to_block_size data 16).length = 16 * ((data.length + 15) / 16) := by
  rw [pad_to_block_size_eq]
  simp only [List.length_append, List.length_replicate]
  omega

/-- ECB encryption with a length-preserving block cipher preserves the
length of any buffer that is a whole number of 16-byte blocks. -/
theorem ecb_encrypt_length (aes_block : List Nat → List Nat → List Nat)
    (key : List Nat)
    (hf : ∀ k b, b.length = 16 → (aes_block k b).length = 16) :
    ∀ (n : Nat) (d : List Nat), d.length ≤ n → 16 ∣ d.length →
      (ecb_encrypt aes_block key d).length = d.length := by
  intro n
  induction n with
  | zero =>
    intro d hle _
    have hd : d = [] := List.length_eq_zero.mp (by omega)
    subst hd
    rw [ecb_encrypt]
    simp
  | succ n ih =>
    intro d hle hdvd
    rw [ecb_encrypt]
    by_cases hd : d = []
    · simp [hd]
    · rw [if_neg hd]
      have hpos : 0 < d.length := List.length_pos.mpr hd
      have h16 : 16 ≤ d.length := by
        rcases hdvd with ⟨k, hk⟩
        rcases Nat.eq_zero_or_pos k with hk0 | hk0
        · omega
        · omega
      have htake : (d.take 16).length = 16 :=
        List.length_take_of_le h16
      have hdroplen : (d.drop 16).length = d.length - 16 := List.length_drop _ _
      have hdropdvd : 16 ∣ (d.drop 16).length := by
        rw [hdroplen]
        exact Nat.dvd_sub' hdvd ⟨1, by norm_num⟩
      have := ih (d.drop 16) (by omega) hdropdvd
      rw [List.length_append, hf key _ htake, this, hdroplen]
      omega

/-- C5: the ciphertext of `encrypt_aes128` (for any length-preserving
16-byte block cipher) has length `len(plaintext)` rounded up to the next
multiple of 16; a plaintext already a multiple of 16 gets no padding, the
padding consists only of zero bytes, and in particular 16-byte plaintexts
give 16-byte ciphertexts while 17-byte plaintexts give 32-byte
ciphertexts. -/
theorem encrypt_aes128_length (aes_block : List Nat → List Nat → List Nat)
    (secret plaintext : List Nat)
    (hsecret : 16 ≤ secret.length)
    (hf : ∀ k b, b.length = 16 → (aes_block k b).length = 16) :
    (encrypt_aes128 aes_block secret plaintext).length
      = 16 * ((plaintext.length + 15) / 16)
    ∧ (plaintext.length % 16 = 0 → pad_to_block_size plaintext 16 = plaintext)
    ∧ pad_to_block_size plaintext 16
      = plaintext ++ List.replicate ((16 - plaintext.length % 16) % 16) 0
    ∧ (plaintext.length = 16 →
        (encrypt_aes128 aes_block secret plaintext).length = 16)
    ∧ (plaintext.length = 17 →
        (encrypt_aes128 aes_block secret plaintext).length = 32) := by
  have hdvd : 16 ∣ (pad_to_block_size plaintext 16).length := by
    rw [pad_to_block_size_length]
    exact ⟨(plaintext.length + 15) / 16, rfl⟩
  have hmain : (encrypt_aes128 aes_block secret plaintext).length
      = 16 * ((plaintext.length + 15) / 16) := by
    rw [encrypt_aes128]
    rw [ecb_encrypt_length aes_block _ hf (pad_to_block_size plaintext 16).length
      _ le_rfl hdvd]
    exact pad_to_block_size_length plaintext
  refine ⟨hmain, ?_, pad_to_block_size_eq plaintext, ?_, ?_⟩
  · intro h0
    rw [pad_to_block_size_eq]
    have : (16 - plaintext.length % 16) % 16 = 0 := by omega
    simp [this]
  · intro h16
    rw [hmain, h16]
  · intro h17
    rw [hmain, h17]

/-- C5 (witness): with the identity block cipher and a 16-byte secret, the
conclusions hold at a concrete 17-byte plaintext. -/
theorem encrypt_aes128_length_witness :
    16 ≤ (List.replicate 16 (0 : Nat)).length
    ∧ (∀ k b : List Nat, b.length = 16
        → ((fun (_ : List Nat) (b : List Nat) => b) k b).length = 16)
    ∧ (encrypt_aes128 (fun _ b => b) (List.replicate 16 0)
        (List.replicate 17 0)).length
      = 16 * (((List.replicate 17 (0 : Nat)).length + 15) / 16)
    ∧ ((List.replicate 17 (0 : Nat)).length = 17 →
        (encrypt_aes128 (fun _ b => b) (List.replicate 16 0)
          (List.replicate 17 0)).length = 32) :=
  ⟨by simp, fun _ _ h => h,
   (encrypt_aes128_length (fun _ b => b) (List.replicate 16 0)
      (List.replicate 17 0) (by simp) (fun _ _ h => h)).1,
   (encrypt_aes128_length (fun _ b => b) (List.replicate 16 0)
      (List.replicate 17 0) (by simp) (fun _ _ h => h)).2.2.2.2⟩

/-- C3: for every secret, sender, message and timestamp (and any
implementations of the SHA-256, AES block and HMAC primitives whose HMAC
digest is 32 bytes), the group-text packet starts with the header byte
`0x15 = (GRP_TXT << 2) | FLOOD`, then the `path_len` byte `0x00`, then the
first byte of `SHA-256(secret)`, then the first 2 bytes of
`HMAC-SHA256(secret[:32], ciphertext)`, and ends with exactly the
ciphertext. -/
theorem group_text_packet_layout (sha256 : List Nat → List Nat)
    (aes_block hmac_sha256 : List Nat → List Nat → List Nat)
    (secret sender_name message : List Nat) (timestamp : Nat)
    (hhmac : ∀ k m : List Nat, (hmac_sha256 k m).length = 32) :
    (create_group_text_packet sha256 aes_block hmac_sha256 secret
        sender_name message timestamp).getD 0 0 = 0x15
    ∧ (create_group_text_packet sha256 aes_block hmac_sha256 secret
        sender_name message timestamp).getD 1 0 = 0x00
    ∧ (create_group_text_packet sha256 aes_block hmac_sha256 secret
        sender_name message timestamp).getD 2 0 = (sha256 secret).getD 0 0
    ∧ ((create_group_text_packet sha256 aes_block hmac_sha256 secret
        sender_name message timestamp).drop 3).take 2
      = (hmac_sha256 (secret.take 32)
          (encrypt_aes128 aes_block secret
            (create_group_message_data timestamp sender_name message))).take 2
    ∧ (create_group_text_packet sha256 aes_block hmac_sha256 secret
        sender_name message timestamp).drop 5
      = encrypt_aes128 aes_block secret
          (create_group_message_data timestamp sender_name message) := by
  have hmaclen : ((hmac_sha256 (secret.take PUB_KEY_SIZE)
      (encrypt_aes128 aes_block secret
        (create_group_message_data timestamp sender_name message))).take
          CIPHER_MAC_SIZE).length = 2 := by
    rw [List.length_take, hhmac]
    rfl
  refine ⟨rfl, rfl, rfl, ?_, ?_⟩
  · exact List.take_left' hmaclen
  · exact List.drop_left' hmaclen

/-- C3 (witness): the layout at concrete toy primitives and inputs. -/
theorem group_text_packet_layout_witness :
    (∀ k m : List Nat,
      ((fun (_ : List Nat) (_ : List Nat) => List.replicate 32 (3 : Nat)) k m).length
        = 32)
    ∧ (create_group_text_packet (fun _ => List.replicate 32 7) (fun _ b => b)
        (fun _ _ => List.replicate 32 3) get_public_channel_secret
        [65] [66] 1700000000).getD 0 0 = 0x15
    ∧ (create_group_text_packet (fun _ => List.replicate 32 7) (fun _ b => b)
        (fun _ _ => List.replicate 32 3) get_public_channel_secret
        [65] [66] 1700000000).getD 1 0 = 0x00 :=
  ⟨fun _ _ => by simp,
   (group_text_packet_layout (fun _ => List.replicate 32 7) (fun _ b => b)
      (fun _ _ => List.replicate 32 3) get_public_channel_secret
      [65] [66] 1700000000 (fun _ _ => by simp)).1,
   (group_text_packet_layout (fun _ => List.replicate 32 7) (fun _ b => b)
      (fun _ _ => List.replicate 32 3) get_public_channel_secret
      [65] [66] 1700000000 (fun _ _ => by simp)).2.1⟩

/-- C6: `encrypt_then_mac` is deterministic — two invocations on
byte-identical `(secret, plaintext)` inputs (under the same primitives)
produce byte-identical outputs; its embedding takes no random nonce or
initialization vector input at all. -/
theorem encrypt_then_mac_deterministic
    (aes_block hmac_sha256 : List Nat → List Nat → List Nat)
    (secret plaintext secret' plaintext' : List Nat)
    (hs : secret = secret') (hp : plaintext = plaintext') :
    encrypt_then_mac aes_block hmac_sha256 secret plaintext
    = encrypt_then_mac aes_block hmac_sha256 secret' plaintext' := by
  rw [hs, hp]

/-- C6 (witness): determinism at a concrete input. -/
theorem encrypt_then_mac_deterministic_witness :
    get_public_channel_secret = get_public_channel_secret
    ∧ ([1, 2, 3] : List Nat) = [1, 2, 3]
    ∧ encrypt_then_mac (fun _ b => b) (fun _ _ => List.replicate 32 0)
        get_public_channel_secret [1, 2, 3]
      = encrypt_then_mac (fun _ b => b) (fun _ _ => List.replicate 32 0)
          get_public_channel_secret [1, 2, 3] :=
  ⟨rfl, rfl, encrypt_then_mac_deterministic (fun _ b => b)
    (fun _ _ => List.replicate 32 0) get_public_channel_secret [1, 2, 3]
    get_public_channel_secret [1, 2, 3] rfl rfl⟩

end MeshClient
